import Mathlib

/-!
Verification of the WebVTT caption parsing pipeline of
`src/api/routes/transcript.py` (`parse_vtt_captions`, `parse_vtt_timestamp`).

Python strings are modelled as lists of characters (`PyStr`); Python floats as
rational numbers; the two `while` loops of `parse_vtt_captions` as recursive
functions with explicit state.  All definitions are computable and structural,
so concrete documents can be evaluated inside proofs.
-/

/-- A Python string, modelled as its list of characters. -/
abbrev PyStr := List Char

/-- The characters stripped by Python `str.strip()` and split on by
`str.split()` with no argument: space, tab, newline, carriage return,
vertical tab, form feed. -/
def pyIsSpace (c : Char) : Bool :=
  c = ' ' || c = '\t' || c = '\n' || c = '\r' || c = '\x0b' || c = '\x0c'

/-- Python `str.strip()`: remove leading and trailing whitespace. -/
def pyStrip (s : PyStr) : PyStr :=
  ((s.dropWhile pyIsSpace).reverse.dropWhile pyIsSpace).reverse

/-- Helper for `pySplitWs`: `cur` is the current (reversed) run of
non-whitespace characters. -/
def wsSplitAux : PyStr → PyStr → List PyStr
  | cur, [] => if cur = [] then [] else [cur.reverse]
  | cur, c :: cs =>
    if pyIsSpace c then
      (if cur = [] then [] else [cur.reverse]) ++ wsSplitAux [] cs
    else
      wsSplitAux (c :: cur) cs

/-- Python `str.split()` with no argument: split on runs of whitespace,
dropping empty pieces. -/
def pySplitWs (s : PyStr) : List PyStr :=
  wsSplitAux [] s

/-- Remove `sep` from the front of `s`, if it is a prefix. -/
def stripFront : PyStr → PyStr → Option PyStr
  | [], s => some s
  | _ :: _, [] => none
  | p :: ps, c :: cs => if c = p then stripFront ps cs else none

/-- Fuelled worker for `pySplitOn`; the fuel is an upper bound on the number
of characters still to be consumed, so `pySplitOn` always supplies enough. -/
def pySplitOnF (sep : PyStr) : ℕ → PyStr → List PyStr
  | _, [] => [[]]
  | 0, s => [s]
  | fuel + 1, c :: cs =>
    match stripFront sep (c :: cs) with
    | some rest => [] :: pySplitOnF sep fuel rest
    | none =>
      match pySplitOnF sep fuel cs with
      | [] => [[c]]
      | h :: t => (c :: h) :: t

/-- Python `str.split(sep)` for a non-empty separator `sep`: split on each
non-overlapping occurrence of `sep`, scanning left to right. -/
def pySplitOn (sep s : PyStr) : List PyStr :=
  pySplitOnF sep s.length s

/-- Python `str.startswith(pre)`. -/
def pyStartsWith (s pre : PyStr) : Bool :=
  pre.isPrefixOf s

/-- Python `str.endswith(suf)`. -/
def pyEndsWith (s suf : PyStr) : Bool :=
  suf.isSuffixOf s

/-- Leading decimal digits of a character list, and the remainder. -/
def takeDigits : PyStr → PyStr × PyStr
  | [] => ([], [])
  | c :: cs =>
    if c.isDigit then
      let p := takeDigits cs
      (c :: p.1, p.2)
    else
      ([], c :: cs)

/-- Numeric value of a list of decimal digits (most significant first). -/
def natOfDigits (ds : PyStr) : ℕ :=
  ds.foldl (fun a c => 10 * a + (c.toNat - 48)) 0

/-- Exponent suffix of a float literal, after the letter `e`: an optional
sign followed by at least one digit, consuming the whole remainder. -/
def parseExpSuffix (cs : PyStr) : Option ℤ :=
  let sb : ℤ × PyStr :=
    match cs with
    | '+' :: t => (1, t)
    | '-' :: t => (-1, t)
    | t => (1, t)
  let p := takeDigits sb.2
  if p.1 = [] ∨ p.2 ≠ [] then none
  else some (sb.1 * (natOfDigits p.1 : ℤ))

/-- Unsigned decimal float literal: digits with an optional fractional part
(at least one digit overall) and an optional exponent, consuming the whole
input. -/
def parseUnsignedFloat (cs : PyStr) : Option ℚ :=
  let ip := takeDigits cs
  let fp : PyStr × PyStr :=
    match ip.2 with
    | '.' :: t => takeDigits t
    | _ => ([], ip.2)
  if ip.1 = [] ∧ fp.1 = [] then none
  else
    let mant : ℚ := (natOfDigits ip.1 : ℚ) + (natOfDigits fp.1 : ℚ) / (10 : ℚ) ^ fp.1.length
    match fp.2 with
    | [] => some mant
    | c :: t =>
      if c = 'e' ∨ c = 'E' then
        match parseExpSuffix t with
        | some e => some (mant * (10 : ℚ) ^ e)
        | none => none
      else none

/-- Model of Python `float(str)` on finite decimal literals: surrounding
whitespace, an optional sign, then a decimal literal with optional fraction
and exponent.  `none` models the `ValueError` raised on any other input.
The special spellings `inf`/`nan` and underscore digit separators are
outside the modelled grammar; they never occur in the documents at issue. -/
def pyFloat (s : PyStr) : Option ℚ :=
  match pyStrip s with
  | '+' :: t => parseUnsignedFloat t
  | '-' :: t => (parseUnsignedFloat t).map (fun q => -q)
  | t => parseUnsignedFloat t

/-- Embedding of `parse_vtt_timestamp` (transcript.py:265-279): split on
`:`; three fields are hours, minutes, seconds; two fields are minutes,
seconds; any other shape is parsed as a bare float.  `none` models the
`ValueError` the Python code lets escape to its caller. -/
def parse_vtt_timestamp (timestamp_str : PyStr) : Option ℚ :=
  match pySplitOn [':'] timestamp_str with
  | [hours, minutes, seconds] => do
    let h ← pyFloat hours
    let m ← pyFloat minutes
    let s ← pyFloat seconds
    pure (h * 3600 + m * 60 + s)
  | [minutes, seconds] => do
    let m ← pyFloat minutes
    let s ← pyFloat seconds
    pure (m * 60 + s)
  | _ => pyFloat timestamp_str

/-- A raw caption cue as accumulated in `raw_captions`
(transcript.py:204-209). -/
structure Caption where
  text : PyStr
  startTime : ℚ
  endTime : ℚ
deriving Repr, DecidableEq, Inhabited

/-- An output transcript segment (schemas/transcript.py `TranscriptSegment`,
built at transcript.py:252-259). -/
structure TranscriptSegment where
  id : PyStr
  text : PyStr
  startTime : ℚ
  endTime : ℚ
  claim : PyStr
  claimIndex : ℕ
deriving Repr, DecidableEq, Inhabited

/-- The cue-timing separator token. -/
def arrow : PyStr := "-->".toList

/-- The Python membership test at transcript.py:183/188, expressed through
the same split the timing-line handler performs: a string contains the
separator exactly when splitting on it yields at least two parts. -/
def containsArrow (line : PyStr) : Bool :=
  match pySplitOn arrow line with
  | _ :: _ :: _ => true
  | _ => false

/-- Embedding of the timing-line handling at transcript.py:190-192: split on
the separator, parse the left part (stripped) as the start timestamp and the
first whitespace-delimited token of the right part as the end timestamp.
`none` models every exception the handler at line 210 catches here: a
timestamp `ValueError`, and the `IndexError` raised when no token follows
the separator. -/
def parseTimingLine (line : PyStr) : Option (ℚ × ℚ) :=
  match pySplitOn arrow line with
  | p0 :: p1 :: _ => do
    let startTime ← parse_vtt_timestamp (pyStrip p0)
    let tok ← (pySplitWs (pyStrip p1)).head?
    let endTime ← parse_vtt_timestamp tok
    pure (startTime, endTime)
  | _ => none

/-- The body-line filter at transcript.py:200: a (stripped, non-blank) body
line is appended to the cue text exactly when it does not start with `<`
and does not end with `>`. -/
def keepBodyLine (text : PyStr) : Bool :=
  !pyStartsWith text ['<'] && !pyEndsWith text ['>']

/-- State of the cue-extraction scan (transcript.py:178-213): either looking
for the next timing line, or collecting body lines of a cue whose
timestamps already parsed (`acc` holds the retained body texts so far). -/
inductive ScanState where
  | scanning : ScanState
  | inBody (startTime endTime : ℚ) (acc : List PyStr) : ScanState
deriving Repr, DecidableEq

/-- Close the current cue body (transcript.py:204-209): emit a cue whose
text joins the retained body lines with single spaces, unless nothing was
retained, in which case no cue is emitted. -/
def closeCue (startTime endTime : ℚ) (acc : List PyStr) : List Caption :=
  if acc = [] then []
  else [{ text := (" ".toList).intercalate acc, startTime := startTime, endTime := endTime }]

/-- Embedding of the cue-extraction `while` loop (transcript.py:178-213) as
a scan over the line list with explicit state.  In `scanning` state a line
is skipped when blank, starting with `WEBVTT` or `NOTE`, or lacking the
separator; a timing line whose handling raises moves on to the next line
(the `except` branch at 210-211); otherwise body collection starts.  In
`inBody` state non-blank lines are collected (filtered by `keepBodyLine`)
and a blank line or the end of input closes the cue. -/
def extractLines : ScanState → List PyStr → List Caption
  | .scanning, [] => []
  | .inBody st en acc, [] => closeCue st en acc
  | .scanning, line :: ls =>
    let l := pyStrip line
    if l = [] || pyStartsWith l ("WEBVTT".toList) || pyStartsWith l ("NOTE".toList)
        || !containsArrow l then
      extractLines .scanning ls
    else
      match parseTimingLine l with
      | none => extractLines .scanning ls
      | some (st, en) => extractLines (.inBody st en []) ls
  | .inBody st en acc, line :: ls =>
    let t := pyStrip line
    if t = [] then
      closeCue st en acc ++ extractLines .scanning ls
    else
      extractLines (.inBody st en (acc ++ if keepBodyLine t then [t] else [])) ls

/-- The cue-extraction half of `parse_vtt_captions` (transcript.py:174-213):
strip the document, split it into lines, and scan. -/
def extractCaptions (vtt_content : PyStr) : List Caption :=
  extractLines .scanning (pySplitOn ['\n'] (pyStrip vtt_content))

/-- Embedding of the inner accumulation loop (transcript.py:231-242): fold
cues into the open segment, which started at time `start`, until the folded
span reaches 5 seconds or the cues run out.  Returns the cues folded into
this segment and the cues left over. -/
def groupFrom (start : ℚ) : List Caption → List Caption × List Caption
  | [] => ([], [])
  | c :: cs =>
    if 5 ≤ c.endTime - start then
      ([c], cs)
    else
      let p := groupFrom start cs
      (c :: p.1, p.2)

/-- Close the open segment (transcript.py:245-259): join the accumulated cue
texts with single spaces, take the first two whitespace-separated words as
the claim placeholder (or the full text when there are no words), and stamp
the sequential id and claim index. -/
def mkSegment (segId claimId : ℕ) (group : List Caption) : TranscriptSegment :=
  let segment_text := (" ".toList).intercalate (group.map Caption.text)
  let words := (pySplitWs segment_text).take 2
  let claim_text := if words ≠ [] then (" ".toList).intercalate words else segment_text
  { id := ("seg_" ++ toString segId).toList
    text := segment_text
    startTime := (group.headD default).startTime
    endTime := (group.getLastD default).endTime
    claim := claim_text
    claimIndex := claimId }

/-- Fuelled worker for the outer grouping loop (transcript.py:224-262); the
fuel bounds the number of cues still to be consumed, and each round consumes
at least one cue, so `buildSegments` always supplies enough.  The emptiness
test mirrors `if current_segment_text:` at line 245. -/
def buildSegmentsAux : ℕ → ℕ → ℕ → List Caption → List TranscriptSegment
  | _, _, _, [] => []
  | 0, _, _, _ :: _ => []
  | fuel + 1, segId, claimId, c :: cs =>
    let p := groupFrom c.startTime (c :: cs)
    if p.1 = [] then buildSegmentsAux fuel segId claimId p.2
    else mkSegment segId claimId p.1 :: buildSegmentsAux fuel (segId + 1) (claimId + 1) p.2

/-- The grouping half of `parse_vtt_captions` (transcript.py:215-262), with
the two counters `segment_id` and `claim_id`. -/
def buildSegments (segId claimId : ℕ) (caps : List Caption) : List TranscriptSegment :=
  buildSegmentsAux caps.length segId claimId caps

/-- Fuelled companion of `buildSegmentsAux` recording, for each emitted
segment, the run of cues folded into it. -/
def segGroupsAux : ℕ → List Caption → List (List Caption)
  | _, [] => []
  | 0, _ :: _ => []
  | fuel + 1, c :: cs =>
    let p := groupFrom c.startTime (c :: cs)
    p.1 :: segGroupsAux fuel p.2

/-- The runs of cues consumed by the successive segments. -/
def segGroups (caps : List Caption) : List (List Caption) :=
  segGroupsAux caps.length caps

/-- Embedding of `parse_vtt_captions` (transcript.py:160-264): extract the
raw cues, then group them into segments. -/
def parse_vtt_captions (vtt_content : PyStr) : List TranscriptSegment :=
  buildSegments 0 0 (extractCaptions vtt_content)

/-- Whether the claimed timestamp invariant for a cue is respected by a
line, seen as a timing line: vacuously true when the line does not parse as
one, otherwise the parsed start must be non-negative and at most the parsed
end. -/
def timingLineOK (line : PyStr) : Bool :=
  match parseTimingLine (pyStrip line) with
  | none => true
  | some (st, en) => decide (0 ≤ st ∧ st ≤ en)

/-- Invariant carried by the scan state: an open cue body has a
non-negative start not exceeding its end. -/
def stateOK : ScanState → Prop
  | .scanning => True
  | .inBody st en _ => 0 ≤ st ∧ st ≤ en

/-- The worked example document of the specification (two cues). -/
def helloDoc : PyStr :=
  ("WEBVTT\n\n00:00:00.000 --> 00:00:03.000\nHello world\n\n"
    ++ "00:00:03.000 --> 00:00:07.000\nSecond line\n").toList

/-- A document whose only body line ends with `>` without starting with
`<`: not entirely a markup tag, yet the code discards it. -/
def trailingTagDoc : PyStr :=
  ("WEBVTT\n\n00:00:00.000 --> 00:00:03.000\nhello>\n").toList

/-- A document whose cues appear with decreasing start times, the second
one with its end before its start. -/
def unorderedDoc : PyStr :=
  ("WEBVTT\n\n00:00:10.000 --> 00:00:20.000\nA\n\n"
    ++ "00:00:05.000 --> 00:00:01.000\nB\n").toList

/-- A document with an inverted cue and a cue with negative timestamps. -/
def invertedDoc : PyStr :=
  ("WEBVTT\n\n00:00:05.000 --> 00:00:01.000\nA\n\n-5 --> -3\nB\n").toList

/-- A document whose first cue has an unparseable timestamp, followed by a
well-formed cue. -/
def mixedDoc : PyStr :=
  ("WEBVTT\n\n00:bad --> 00:00:02.000\noops\n\n"
    ++ "00:00:03.000 --> 00:00:09.500\nok\n").toList

/-- A document whose first timing line has nothing after the separator,
followed by a well-formed cue. -/
def danglingDoc : PyStr :=
  ("WEBVTT\n\n00:00:01.000 --> \n\n00:00:03.000 --> 00:00:09.000\nstill here\n").toList

/-- A sample cue body: a spoken line, a pure markup line, and a line merely
ending with `>`. -/
def sampleBody : List PyStr := ["Hello world".toList, "<c>".toList, "x>".toList]

/-- Two short cues whose first spans at least the 5-second threshold. -/
def capA : Caption := ⟨"a".toList, 0, 6⟩

/-- The follow-up short cue of the pair. -/
def capB : Caption := ⟨"b".toList, 6, 8⟩

/-- The cue list formed by the two sample cues. -/
def shortCaps : List Caption := [capA, capB]

/-- The first segment the aggregator emits on `shortCaps`. -/
def segA : TranscriptSegment := ⟨"seg_0".toList, "a".toList, 0, 6, "a".toList, 0⟩

/-- The single segment emitted on the worked example document. -/
def helloSeg : TranscriptSegment :=
  ⟨"seg_0".toList, "Hello world Second line".toList, 0, 7, "Hello world".toList, 0⟩

/-- A timing line with no token after the separator. -/
def danglingLine : PyStr := "00:00:01.000 --> ".toList

theorem extractLines_skip_line (line : PyStr) (ls : List PyStr)
    (h : parseTimingLine (pyStrip line) = none) :
    extractLines .scanning (line :: ls) = extractLines .scanning ls := by
  simp only [extractLines, h, ite_self]

theorem groupFrom_append (start : ℚ) (l : List Caption) :
    (groupFrom start l).1 ++ (groupFrom start l).2 = l := by
  induction l with
  | nil => rfl
  | cons c cs ih =>
    simp only [groupFrom]
    split
    · rfl
    · simpa using ih

theorem groupFrom_fst_ne_nil (start : ℚ) (c : Caption) (cs : List Caption) :
    (groupFrom start (c :: cs)).1 ≠ [] := by
  simp only [groupFrom]
  split <;> simp

theorem groupFrom_fst_head (start : ℚ) (c : Caption) (cs : List Caption) (d : Caption) :
    (groupFrom start (c :: cs)).1.headD d = c := by
  simp only [groupFrom]
  split <;> rfl

theorem groupFrom_rest_length (start : ℚ) (c : Caption) (cs : List Caption) :
    (groupFrom start (c :: cs)).2.length ≤ cs.length := by
  have h := congrArg List.length (groupFrom_append start (c :: cs))
  have hne := groupFrom_fst_ne_nil start c cs
  have hpos : 0 < (groupFrom start (c :: cs)).1.length := List.length_pos.mpr hne
  simp only [List.length_append, List.length_cons] at h
  omega

theorem groupFrom_last_ge (start : ℚ) (l : List Caption)
    (h : (groupFrom start l).2 ≠ []) :
    5 ≤ ((groupFrom start l).1.getLastD default).endTime - start := by
  induction l with
  | nil => simp [groupFrom] at h
  | cons c cs ih =>
    by_cases hge : 5 ≤ c.endTime - start
    · simp only [groupFrom, if_pos hge]
      simpa using hge
    · simp only [groupFrom, if_neg hge] at h ⊢
      have hne : (groupFrom start cs).1 ≠ [] := by
        cases hcs : cs with
        | nil => rw [hcs] at h; simp [groupFrom] at h
        | cons c' cs' => exact groupFrom_fst_ne_nil start c' cs'
      have := ih h
      rcases List.exists_cons_of_ne_nil hne with ⟨c', t, hct⟩
      rw [hct] at this ⊢
      simpa using this

theorem buildSegmentsAux_cons (fuel segId claimId : ℕ) (c : Caption) (cs : List Caption) :
    buildSegmentsAux (fuel + 1) segId claimId (c :: cs)
      = mkSegment segId claimId (groupFrom c.startTime (c :: cs)).1
        :: buildSegmentsAux fuel (segId + 1) (claimId + 1) (groupFrom c.startTime (c :: cs)).2 := by
  simp only [buildSegmentsAux]
  rw [if_neg (groupFrom_fst_ne_nil _ _ _)]

theorem buildSegmentsAux_eq_nil_iff (fuel segId claimId : ℕ) (caps : List Caption)
    (hfuel : caps.length ≤ fuel) :
    (buildSegmentsAux fuel segId claimId caps = []) ↔ caps = [] := by
  cases caps with
  | nil => simp [buildSegmentsAux]
  | cons c cs =>
    cases fuel with
    | zero => simp at hfuel
    | succ fuel => rw [buildSegmentsAux_cons]; simp

theorem buildSegmentsAux_dropLast_duration (fuel : ℕ) :
    ∀ (segId claimId : ℕ) (caps : List Caption), caps.length ≤ fuel →
    ∀ s ∈ (buildSegmentsAux fuel segId claimId caps).dropLast, 5 ≤ s.endTime - s.startTime := by
  induction fuel with
  | zero =>
    intro i j caps hlen s hs
    rw [List.length_eq_zero.mp (Nat.le_zero.mp hlen)] at hs
    simp [buildSegmentsAux] at hs
  | succ fuel ih =>
    intro i j caps hlen s hs
    cases caps with
    | nil => simp [buildSegmentsAux] at hs
    | cons c cs =>
      rw [buildSegmentsAux_cons] at hs
      by_cases hrest : (groupFrom c.startTime (c :: cs)).2 = []
      · rw [hrest] at hs
        simp [buildSegmentsAux] at hs
      · have hle : (groupFrom c.startTime (c :: cs)).2.length ≤ fuel :=
          le_trans (groupFrom_rest_length _ _ _) (Nat.succ_le_succ_iff.mp hlen)
        have htail : buildSegmentsAux fuel (i + 1) (j + 1) (groupFrom c.startTime (c :: cs)).2 ≠ [] := by
          rw [Ne, buildSegmentsAux_eq_nil_iff _ _ _ _ hle]
          exact hrest
        rw [List.dropLast_cons_of_ne_nil htail, List.mem_cons] at hs
        rcases hs with hs | hs
        · subst hs
          have hhead := groupFrom_fst_head c.startTime c cs default
          dsimp only [mkSegment]
          rw [hhead]
          exact groupFrom_last_ge c.startTime (c :: cs) hrest
        · exact ih (i + 1) (j + 1) _ hle s hs

theorem segGroupsAux_join (fuel : ℕ) :
    ∀ (caps : List Caption), caps.length ≤ fuel →
    (segGroupsAux fuel caps).flatten = caps := by
  induction fuel with
  | zero =>
    intro caps hlen
    rw [List.length_eq_zero.mp (Nat.le_zero.mp hlen)]
    rfl
  | succ fuel ih =>
    intro caps hlen
    cases caps with
    | nil => rfl
    | cons c cs =>
      have hle : (groupFrom c.startTime (c :: cs)).2.length ≤ fuel :=
        le_trans (groupFrom_rest_length _ _ _) (Nat.succ_le_succ_iff.mp hlen)
      show ((groupFrom c.startTime (c :: cs)).1 :: segGroupsAux fuel _).flatten = c :: cs
      rw [List.flatten_cons, ih _ hle, groupFrom_append]

theorem segGroupsAux_ne_nil (fuel : ℕ) :
    ∀ (caps : List Caption), ∀ g ∈ segGroupsAux fuel caps, g ≠ [] := by
  induction fuel with
  | zero =>
    intro caps g hg
    cases caps <;> simp [segGroupsAux] at hg
  | succ fuel ih =>
    intro caps g hg
    cases caps with
    | nil => simp [segGroupsAux] at hg
    | cons c cs =>
      rcases List.mem_cons.mp hg with h | h
      · subst h; exact groupFrom_fst_ne_nil _ _ _
      · exact ih _ g h

theorem buildSegmentsAux_map_text (fuel : ℕ) :
    ∀ (segId claimId : ℕ) (caps : List Caption),
    (buildSegmentsAux fuel segId claimId caps).map TranscriptSegment.text
      = (segGroupsAux fuel caps).map
          (fun g => (" ".toList).intercalate (g.map Caption.text)) := by
  induction fuel with
  | zero =>
    intro i j caps
    cases caps <;> rfl
  | succ fuel ih =>
    intro i j caps
    cases caps with
    | nil => rfl
    | cons c cs =>
      rw [buildSegmentsAux_cons]
      show _ :: _ = _ :: _
      rw [ih]
      rfl

theorem buildSegmentsAux_length (fuel : ℕ) :
    ∀ (segId claimId : ℕ) (caps : List Caption),
    (buildSegmentsAux fuel segId claimId caps).length ≤ caps.length := by
  induction fuel with
  | zero =>
    intro i j caps
    cases caps <;> simp [buildSegmentsAux]
  | succ fuel ih =>
    intro i j caps
    cases caps with
    | nil => simp [buildSegmentsAux]
    | cons c cs =>
      rw [buildSegmentsAux_cons]
      have h1 := ih (i + 1) (j + 1) (groupFrom c.startTime (c :: cs)).2
      have h2 := groupFrom_rest_length c.startTime c cs
      simp only [List.length_cons]
      omega

theorem buildSegmentsAux_idx (fuel : ℕ) :
    ∀ (segId claimId n : ℕ) (caps : List Caption) (s : TranscriptSegment),
    (buildSegmentsAux fuel segId claimId caps)[n]? = some s →
    s.id = ("seg_" ++ toString (segId + n)).toList ∧ s.claimIndex = claimId + n := by
  induction fuel with
  | zero =>
    intro i j n caps s hs
    cases caps <;> simp [buildSegmentsAux] at hs
  | succ fuel ih =>
    intro i j n caps s hs
    cases caps with
    | nil => simp [buildSegmentsAux] at hs
    | cons c cs =>
      rw [buildSegmentsAux_cons] at hs
      cases n with
      | zero =>
        simp only [List.getElem?_cons_zero, Option.some.injEq] at hs
        subst hs
        exact ⟨by simp [mkSegment], by simp [mkSegment]⟩
      | succ n =>
        rw [List.getElem?_cons_succ] at hs
        have h2 := ih (i + 1) (j + 1) n _ s hs
        have e1 : i + 1 + n = i + (n + 1) := by omega
        have e2 : j + 1 + n = j + (n + 1) := by omega
        rw [e1, e2] at h2
        exact h2

theorem buildSegmentsAux_start_mem (fuel : ℕ) :
    ∀ (segId claimId : ℕ) (caps : List Caption) (s : TranscriptSegment),
    s ∈ buildSegmentsAux fuel segId claimId caps →
    ∃ c ∈ caps, s.startTime = c.startTime := by
  induction fuel with
  | zero =>
    intro i j caps s hs
    cases caps <;> simp [buildSegmentsAux] at hs
  | succ fuel ih =>
    intro i j caps s hs
    cases caps with
    | nil => simp [buildSegmentsAux] at hs
    | cons c cs =>
      rw [buildSegmentsAux_cons, List.mem_cons] at hs
      rcases hs with hs | hs
      · subst hs
        refine ⟨c, List.mem_cons_self c cs, ?_⟩
        dsimp only [mkSegment]
        rw [groupFrom_fst_head]
      · rcases ih (i + 1) (j + 1) _ s hs with ⟨x, hx, hxs⟩
        refine ⟨x, ?_, hxs⟩
        rw [← groupFrom_append c.startTime (c :: cs)]
        exact List.mem_append_right _ hx

theorem buildSegmentsAux_order (fuel : ℕ) :
    ∀ (segId claimId : ℕ) (caps : List Caption),
    caps.Pairwise (fun a b => a.startTime ≤ b.startTime) →
    (∀ c ∈ caps, c.startTime ≤ c.endTime) →
    ((buildSegmentsAux fuel segId claimId caps).Pairwise
        fun s t => s.startTime ≤ t.startTime) ∧
    ∀ s ∈ buildSegmentsAux fuel segId claimId caps, s.startTime ≤ s.endTime := by
  induction fuel with
  | zero =>
    intro i j caps hsort hwf
    cases caps <;> simp [buildSegmentsAux]
  | succ fuel ih =>
    intro i j caps hsort hwf
    cases caps with
    | nil => simp [buildSegmentsAux]
    | cons c cs =>
      rw [buildSegmentsAux_cons]
      have happ := groupFrom_append c.startTime (c :: cs)
      have hsub1 := List.subset_append_left
        (groupFrom c.startTime (c :: cs)).1 (groupFrom c.startTime (c :: cs)).2
      have hsub2 := List.subset_append_right
        (groupFrom c.startTime (c :: cs)).1 (groupFrom c.startTime (c :: cs)).2
      rw [happ] at hsub1 hsub2
      have hsortapp : ((groupFrom c.startTime (c :: cs)).1
          ++ (groupFrom c.startTime (c :: cs)).2).Pairwise
          (fun a b => a.startTime ≤ b.startTime) := by
        rw [happ]; exact hsort
      have hsort2 : (groupFrom c.startTime (c :: cs)).2.Pairwise
          (fun a b => a.startTime ≤ b.startTime) :=
        (List.pairwise_append.mp hsortapp).2.1
      have hwf2 : ∀ x ∈ (groupFrom c.startTime (c :: cs)).2, x.startTime ≤ x.endTime :=
        fun x hx => hwf x (hsub2 hx)
      have hIH := ih (i + 1) (j + 1) _ hsort2 hwf2
      have hstart0 : (mkSegment i j (groupFrom c.startTime (c :: cs)).1).startTime
          = c.startTime := by
        dsimp only [mkSegment]; rw [groupFrom_fst_head]
      have hcle : ∀ x ∈ (c :: cs), c.startTime ≤ x.startTime := by
        intro x hx
        rcases List.mem_cons.mp hx with rfl | hx
        · exact le_refl _
        · exact List.rel_of_pairwise_cons hsort hx
      have hend0 : c.startTime
          ≤ (mkSegment i j (groupFrom c.startTime (c :: cs)).1).endTime := by
        rcases List.exists_cons_of_ne_nil (groupFrom_fst_ne_nil c.startTime c cs)
          with ⟨c0, t, hct⟩
        have hd : (groupFrom c.startTime (c :: cs)).1.getLastD default ∈ c0 :: t := by
          rw [hct, List.getLastD_cons]
          exact List.getLastD_mem_cons t c0
        rw [← hct] at hd
        have hdmem : (groupFrom c.startTime (c :: cs)).1.getLastD default ∈ c :: cs :=
          hsub1 hd
        calc c.startTime
            ≤ ((groupFrom c.startTime (c :: cs)).1.getLastD default).startTime :=
              hcle _ hdmem
          _ ≤ ((groupFrom c.startTime (c :: cs)).1.getLastD default).endTime :=
              hwf _ hdmem
          _ = (mkSegment i j (groupFrom c.startTime (c :: cs)).1).endTime := rfl
      constructor
      · rw [List.pairwise_cons]
        refine ⟨?_, hIH.1⟩
        intro t' ht'
        rcases buildSegmentsAux_start_mem fuel (i + 1) (j + 1) _ t' ht' with ⟨x, hx, hxe⟩
        rw [hstart0, hxe]
        exact hcle x (hsub2 hx)
      · intro s hs
        rcases List.mem_cons.mp hs with rfl | hs
        · rw [hstart0]
          exact hend0
        · exact hIH.2 s hs

theorem extractLines_invariant (lines : List PyStr) :
    ∀ (state : ScanState), stateOK state →
    (∀ l ∈ lines, timingLineOK l = true) →
    ∀ c ∈ extractLines state lines,
      0 ≤ c.startTime ∧ 0 ≤ c.endTime ∧ c.startTime ≤ c.endTime := by
  induction lines with
  | nil =>
    intro state hstate _ c hc
    cases state with
    | scanning => simp [extractLines] at hc
    | inBody st en acc =>
      simp only [extractLines, closeCue] at hc
      split at hc
      · simp at hc
      · simp at hc
        rcases hstate with ⟨h1, h2⟩
        rw [hc]
        exact ⟨h1, le_trans h1 h2, h2⟩
  | cons line ls ih =>
    intro state hstate hok c hc
    have hok' : ∀ l ∈ ls, timingLineOK l = true :=
      fun l hl => hok l (List.mem_cons_of_mem _ hl)
    have hokline := hok line (List.mem_cons_self _ _)
    cases state with
    | scanning =>
      simp only [extractLines] at hc
      split at hc
      · exact ih .scanning trivial hok' c hc
      · cases hpt : parseTimingLine (pyStrip line) with
        | none =>
          rw [hpt] at hc
          exact ih .scanning trivial hok' c hc
        | some p =>
          obtain ⟨st, en⟩ := p
          rw [hpt] at hc
          have hst : stateOK (.inBody st en []) := by
            simp only [timingLineOK, hpt] at hokline
            show 0 ≤ st ∧ st ≤ en
            exact of_decide_eq_true hokline
          exact ih (.inBody st en []) hst hok' c hc
    | inBody st en acc =>
      simp only [extractLines] at hc
      split at hc
      · rw [List.mem_append] at hc
        rcases hc with hc | hc
        · simp only [closeCue] at hc
          split at hc
          · simp at hc
          · simp at hc
            rcases hstate with ⟨h1, h2⟩
            rw [hc]
            exact ⟨h1, le_trans h1 h2, h2⟩
        · exact ih .scanning trivial hok' c hc
      · refine ih _ ?_ hok' c hc
        exact hstate

theorem extractLines_body (body : List PyStr) :
    ∀ (st en : ℚ) (acc rest : List PyStr),
    (∀ l ∈ body, pyStrip l ≠ []) →
    (extractLines (.inBody st en acc) body
       = closeCue st en (acc ++ (body.map pyStrip).filter keepBodyLine)) ∧
    (extractLines (.inBody st en acc) (body ++ [] :: rest)
       = closeCue st en (acc ++ (body.map pyStrip).filter keepBodyLine)
         ++ extractLines .scanning rest) := by
  induction body with
  | nil =>
    intro st en acc rest _
    constructor
    · simp [extractLines]
    · simp only [List.nil_append, List.map_nil, List.filter_nil, List.append_nil]
      simp [extractLines, pyStrip]
  | cons l body ih =>
    intro st en acc rest hb
    have hl : pyStrip l ≠ [] := hb l (List.mem_cons_self _ _)
    have hb' : ∀ x ∈ body, pyStrip x ≠ [] := fun x hx => hb x (List.mem_cons_of_mem _ hx)
    have step : ∀ (ls : List PyStr),
        extractLines (.inBody st en acc) (l :: ls)
          = extractLines
              (.inBody st en (acc ++ if keepBodyLine (pyStrip l) then [pyStrip l] else []))
              ls := by
      intro ls
      simp only [extractLines, if_neg hl]
    constructor
    · rw [step body, (ih st en _ rest hb').1, List.map_cons, List.filter_cons]
      by_cases hk : keepBodyLine (pyStrip l) <;>
        simp [hk, List.append_assoc]
    · rw [List.cons_append, step (body ++ [] :: rest), (ih st en _ rest hb').2,
        List.map_cons, List.filter_cons]
      by_cases hk : keepBodyLine (pyStrip l) <;>
        simp [hk, List.append_assoc]

/-- C1 counterexample: on a document whose only body line is `hello>` — a
line that is not entirely a markup tag, since it does not start with `<` —
the extractor retains nothing and discards the cue, although the claim
predicts the line is kept as spoken text. -/
theorem bodyline_tag_filter_counterexample :
    extractCaptions trailingTagDoc = [] ∧
    (pyStartsWith ("hello>".toList) ['<'] && pyEndsWith ("hello>".toList) ['>']) = false :=
  ⟨by with_unfolding_all rfl, by with_unfolding_all rfl⟩

/-- C1 (amended): a body line is discarded when it starts with `<` or ends
with `>` — equivalently, retained exactly when it neither starts with `<`
nor ends with `>`; the retained (stripped) lines are joined into the cue,
both when the body runs to the end of input and when a blank line closes
it. -/
theorem bodyline_tag_filter_or (body : List PyStr) (st en : ℚ) (acc rest : List PyStr)
    (hb : ∀ l ∈ body, pyStrip l ≠ []) :
    (∀ t : PyStr, keepBodyLine t = (!pyStartsWith t ['<'] && !pyEndsWith t ['>'])) ∧
    (extractLines (.inBody st en acc) body
       = closeCue st en (acc ++ (body.map pyStrip).filter keepBodyLine)) ∧
    (extractLines (.inBody st en acc) (body ++ [] :: rest)
       = closeCue st en (acc ++ (body.map pyStrip).filter keepBodyLine)
         ++ extractLines .scanning rest) :=
  ⟨fun _ => rfl, (extractLines_body body st en acc rest hb).1,
    (extractLines_body body st en acc rest hb).2⟩

/-- Witness for the amended C1 theorem at a concrete body. -/
theorem bodyline_tag_filter_or_witness :
    (∀ l ∈ sampleBody, pyStrip l ≠ []) ∧
    extractLines (.inBody 0 3 []) sampleBody
      = closeCue 0 3 ([] ++ (sampleBody.map pyStrip).filter keepBodyLine) := by
  have hb : ∀ l ∈ sampleBody, pyStrip l ≠ [] :=
    of_decide_eq_true (by with_unfolding_all rfl)
  exact ⟨hb, (bodyline_tag_filter_or sampleBody 0 3 [] [] hb).2.1⟩

/-- C2: every emitted segment except possibly the last spans at least 5
seconds, and a cue already spanning the threshold on its own forms a
one-cue group, so the following cues start a fresh segment. -/
theorem segment_min_duration (caps : List Caption) :
    (∀ s ∈ (buildSegments 0 0 caps).dropLast, 5 ≤ s.endTime - s.startTime) ∧
    (∀ c cs, caps = c :: cs → 5 ≤ c.endTime - c.startTime →
       segGroups caps = [c] :: segGroups cs) := by
  constructor
  · exact buildSegmentsAux_dropLast_duration caps.length 0 0 caps (le_refl _)
  · intro c cs hcaps hge
    subst hcaps
    show segGroupsAux (c :: cs).length (c :: cs) = [c] :: segGroupsAux cs.length cs
    have hgrp : groupFrom c.startTime (c :: cs) = ([c], cs) := by
      simp [groupFrom, if_pos hge]
    simp only [List.length_cons, segGroupsAux, hgrp]

/-- Witness for the C2 theorem on a two-cue list with two segments. -/
theorem segment_min_duration_witness :
    (segA ∈ (buildSegments 0 0 shortCaps).dropLast ∧ 5 ≤ segA.endTime - segA.startTime) ∧
    (shortCaps = capA :: [capB] ∧ 5 ≤ capA.endTime - capA.startTime ∧
      segGroups shortCaps = [capA] :: segGroups [capB]) := by
  have hm : segA ∈ (buildSegments 0 0 shortCaps).dropLast :=
    of_decide_eq_true (by with_unfolding_all rfl)
  have hge : 5 ≤ capA.endTime - capA.startTime := by norm_num [capA]
  exact ⟨⟨hm, (segment_min_duration shortCaps).1 segA hm⟩,
    rfl, hge, (segment_min_duration shortCaps).2 capA [capB] rfl hge⟩

/-- C3: the runs of cues consumed by successive segments are disjoint,
contiguous and cover the extracted cue list exhaustively; every run is
non-empty; each segment text joins exactly its run of cue texts; and no
more segments are emitted than cues were extracted. -/
theorem segments_cover_cues (doc : PyStr) :
    (segGroups (extractCaptions doc)).flatten = extractCaptions doc ∧
    ((segGroups (extractCaptions doc)).all fun g => decide (g ≠ [])) = true ∧
    (parse_vtt_captions doc).map TranscriptSegment.text
      = (segGroups (extractCaptions doc)).map
          (fun g => (" ".toList).intercalate (g.map Caption.text)) ∧
    (parse_vtt_captions doc).length ≤ (extractCaptions doc).length := by
  refine ⟨segGroupsAux_join _ _ (le_refl _), ?_, ?_, ?_⟩
  · rw [List.all_eq_true]
    intro g hg
    exact decide_eq_true (segGroupsAux_ne_nil _ _ g hg)
  · exact buildSegmentsAux_map_text _ 0 0 _
  · exact buildSegmentsAux_length _ 0 0 _

/-- C4 counterexample: a document whose cues appear out of order and with
an inverted timing line produces segments with decreasing start times, one
of them ending before it starts. -/
theorem segment_order_counterexample :
    ¬ (((parse_vtt_captions unorderedDoc).Pairwise fun s t => s.startTime ≤ t.startTime) ∧
       ∀ s ∈ parse_vtt_captions unorderedDoc, s.startTime ≤ s.endTime) :=
  of_decide_eq_true (by with_unfolding_all rfl)

/-- C4 (amended): when the extracted cues have non-decreasing start times
and each cue ends no earlier than it starts, the emitted segments are in
non-decreasing start-time order and each satisfies endTime ≥ startTime. -/
theorem segment_order_of_ordered_cues (doc : PyStr)
    (hsort : (extractCaptions doc).Pairwise fun a b => a.startTime ≤ b.startTime)
    (hwf : ∀ c ∈ extractCaptions doc, c.startTime ≤ c.endTime) :
    ((parse_vtt_captions doc).Pairwise fun s t => s.startTime ≤ t.startTime) ∧
    ∀ s ∈ parse_vtt_captions doc, s.startTime ≤ s.endTime :=
  buildSegmentsAux_order _ 0 0 _ hsort hwf

/-- Witness for the amended C4 theorem on the worked example document. -/
theorem segment_order_of_ordered_cues_witness :
    ((extractCaptions helloDoc).Pairwise fun a b => a.startTime ≤ b.startTime) ∧
    (∀ c ∈ extractCaptions helloDoc, c.startTime ≤ c.endTime) ∧
    ((parse_vtt_captions helloDoc).Pairwise fun s t => s.startTime ≤ t.startTime) := by
  have h1 : (extractCaptions helloDoc).Pairwise fun a b => a.startTime ≤ b.startTime :=
    of_decide_eq_true (by with_unfolding_all rfl)
  have h2 : ∀ c ∈ extractCaptions helloDoc, c.startTime ≤ c.endTime :=
    of_decide_eq_true (by with_unfolding_all rfl)
  exact ⟨h1, h2, (segment_order_of_ordered_cues helloDoc h1 h2).1⟩

/-- C5: the timestamp parser maps three colon-separated fields to
H*3600 + M*60 + S, two fields to M*60 + S, any other shape to a bare
float, returns the expected values on the three reference inputs, and
fails (modelled by `none`) whenever a component cannot be coerced to a
number. -/
theorem timestamp_parser_spec :
    (∀ (s h m sec : PyStr) (hv mv sv : ℚ), pySplitOn [':'] s = [h, m, sec] →
       pyFloat h = some hv → pyFloat m = some mv → pyFloat sec = some sv →
       parse_vtt_timestamp s = some (hv * 3600 + mv * 60 + sv)) ∧
    (∀ (s m sec : PyStr) (mv sv : ℚ), pySplitOn [':'] s = [m, sec] →
       pyFloat m = some mv → pyFloat sec = some sv →
       parse_vtt_timestamp s = some (mv * 60 + sv)) ∧
    (∀ s : PyStr, (pySplitOn [':'] s).length ≠ 3 → (pySplitOn [':'] s).length ≠ 2 →
       parse_vtt_timestamp s = pyFloat s) ∧
    (∀ (s h m sec : PyStr), pySplitOn [':'] s = [h, m, sec] →
       pyFloat h = none ∨ pyFloat m = none ∨ pyFloat sec = none →
       parse_vtt_timestamp s = none) ∧
    parse_vtt_timestamp ("00:00:05.000".toList) = some 5 ∧
    parse_vtt_timestamp ("01:02:03.500".toList) = some (7447 / 2) ∧
    parse_vtt_timestamp ("02:30.250".toList) = some (601 / 4) ∧
    parse_vtt_timestamp ("abc".toList) = none := by
  refine ⟨?_, ?_, ?_, ?_, ?_, ?_, ?_, ?_⟩
  · intro s h m sec hv mv sv hsplit hh hm hs
    simp [parse_vtt_timestamp, hsplit, hh, hm, hs]
  · intro s m sec mv sv hsplit hm hs
    simp [parse_vtt_timestamp, hsplit, hm, hs]
  · intro s h3 h2
    cases hsplit : pySplitOn [':'] s with
    | nil => simp [parse_vtt_timestamp, hsplit]
    | cons a t1 =>
      cases t1 with
      | nil => simp [parse_vtt_timestamp, hsplit]
      | cons b t2 =>
        cases t2 with
        | nil => exact absurd (by rw [hsplit]; rfl) h2
        | cons c t3 =>
          cases t3 with
          | nil => exact absurd (by rw [hsplit]; rfl) h3
          | cons d t4 => simp [parse_vtt_timestamp, hsplit]
  · intro s h m sec hsplit hfail
    rcases hfail with hf | hf | hf
    · simp [parse_vtt_timestamp, hsplit, hf]
    · cases hh : pyFloat h <;> simp [parse_vtt_timestamp, hsplit, hf, hh]
    · cases hh : pyFloat h <;> cases hm2 : pyFloat m <;>
        simp [parse_vtt_timestamp, hsplit, hf, hh, hm2]
  · with_unfolding_all rfl
  · with_unfolding_all rfl
  · with_unfolding_all rfl
  · with_unfolding_all rfl

/-- Witness for the C5 theorem at the reference input. -/
theorem timestamp_parser_spec_witness :
    pySplitOn [':'] ("01:02:03.500".toList) = ["01".toList, "02".toList, "03.500".toList] ∧
    pyFloat ("01".toList) = some 1 ∧
    pyFloat ("02".toList) = some 2 ∧
    pyFloat ("03.500".toList) = some (7 / 2) ∧
    parse_vtt_timestamp ("01:02:03.500".toList) = some (1 * 3600 + 2 * 60 + 7 / 2) := by
  have h0 : pySplitOn [':'] ("01:02:03.500".toList)
      = ["01".toList, "02".toList, "03.500".toList] := by with_unfolding_all rfl
  have h1 : pyFloat ("01".toList) = some 1 := by with_unfolding_all rfl
  have h2 : pyFloat ("02".toList) = some 2 := by with_unfolding_all rfl
  have h3 : pyFloat ("03.500".toList) = some (7 / 2) := by with_unfolding_all rfl
  exact ⟨h0, h1, h2, h3, timestamp_parser_spec.1 _ _ _ _ _ _ _ h0 h1 h2 h3⟩

/-- C6: a line whose timing handling fails is skipped and scanning resumes
with the remaining lines; a document with no recoverable cues yields the
empty segment list; and on a document mixing a malformed and a valid cue
the parse returns the segment of the valid cue.  The pipeline is a total
function, so no exception reaches the caller. -/
theorem parse_error_recovery :
    (∀ (line : PyStr) (ls : List PyStr), parseTimingLine (pyStrip line) = none →
       extractLines .scanning (line :: ls) = extractLines .scanning ls) ∧
    (∀ doc : PyStr, extractCaptions doc = [] → parse_vtt_captions doc = []) ∧
    parse_vtt_captions mixedDoc
      = [⟨"seg_0".toList, "ok".toList, 3, 19 / 2, "ok".toList, 0⟩] ∧
    parse_vtt_captions ("".toList) = [] := by
  refine ⟨extractLines_skip_line, ?_, ?_, ?_⟩
  · intro doc h
    show buildSegments 0 0 (extractCaptions doc) = []
    rw [h]
    rfl
  · with_unfolding_all rfl
  · with_unfolding_all rfl

/-- Witness for the C6 theorem at a concrete malformed line and an empty
document. -/
theorem parse_error_recovery_witness :
    parseTimingLine (pyStrip ("00:bad --> 00:00:02.000".toList)) = none ∧
    extractLines .scanning (("00:bad --> 00:00:02.000".toList) :: ["x".toList])
      = extractLines .scanning ["x".toList] ∧
    extractCaptions ("WEBVTT".toList) = [] ∧
    parse_vtt_captions ("WEBVTT".toList) = [] := by
  have h1 : parseTimingLine (pyStrip ("00:bad --> 00:00:02.000".toList)) = none := by
    with_unfolding_all rfl
  have h2 : extractCaptions ("WEBVTT".toList) = [] := by with_unfolding_all rfl
  exact ⟨h1, parse_error_recovery.1 _ _ h1, h2, parse_error_recovery.2.1 _ h2⟩

/-- C7: on the worked example document the extractor yields exactly the two
expected cues and the aggregator exactly the single expected segment. -/
theorem hello_world_pipeline :
    extractCaptions helloDoc
      = [⟨"Hello world".toList, 0, 3⟩, ⟨"Second line".toList, 3, 7⟩] ∧
    parse_vtt_captions helloDoc = [helloSeg] :=
  ⟨by with_unfolding_all rfl, by with_unfolding_all rfl⟩

/-- C8 counterexample: a document with an inverted timing line and negative
timestamps yields cues violating non-negativity and endTime ≥ startTime. -/
theorem cue_invariant_counterexample :
    extractCaptions invertedDoc = [⟨"A".toList, 5, 1⟩, ⟨"B".toList, -5, -3⟩] ∧
    ¬ (∀ c ∈ extractCaptions invertedDoc,
        0 ≤ c.startTime ∧ 0 ≤ c.endTime ∧ c.startTime ≤ c.endTime) :=
  ⟨by with_unfolding_all rfl, of_decide_eq_true (by with_unfolding_all rfl)⟩

/-- C8 (amended): when every timing line of the document parses to a
non-negative start no later than its end, every extracted cue has
non-negative times with endTime ≥ startTime. -/
theorem cue_invariant_of_wellformed (doc : PyStr)
    (h : ∀ line ∈ pySplitOn ['\n'] (pyStrip doc), timingLineOK line = true) :
    ∀ c ∈ extractCaptions doc,
      0 ≤ c.startTime ∧ 0 ≤ c.endTime ∧ c.startTime ≤ c.endTime :=
  extractLines_invariant _ .scanning trivial h

/-- Witness for the amended C8 theorem on the worked example document. -/
theorem cue_invariant_of_wellformed_witness :
    (∀ line ∈ pySplitOn ['\n'] (pyStrip helloDoc), timingLineOK line = true) ∧
    ∀ c ∈ extractCaptions helloDoc,
      0 ≤ c.startTime ∧ 0 ≤ c.endTime ∧ c.startTime ≤ c.endTime := by
  have h : ∀ line ∈ pySplitOn ['\n'] (pyStrip helloDoc), timingLineOK line = true :=
    of_decide_eq_true (by with_unfolding_all rfl)
  exact ⟨h, cue_invariant_of_wellformed helloDoc h⟩

/-- C9: the n-th emitted segment carries id `seg_n` and claimIndex n; the
two counters advance in lockstep from 0, one step per emitted segment. -/
theorem segment_ids_lockstep (doc : PyStr) (n : ℕ) (s : TranscriptSegment)
    (h : (parse_vtt_captions doc)[n]? = some s) :
    s.id = ("seg_" ++ toString n).toList ∧ s.claimIndex = n := by
  have hx := buildSegmentsAux_idx (extractCaptions doc).length 0 0 n (extractCaptions doc) s h
  simpa using hx

/-- Witness for the C9 theorem on the worked example document. -/
theorem segment_ids_lockstep_witness :
    (parse_vtt_captions helloDoc)[0]? = some helloSeg ∧
    helloSeg.id = ("seg_" ++ toString 0).toList ∧ helloSeg.claimIndex = 0 := by
  have h : (parse_vtt_captions helloDoc)[0]? = some helloSeg := by with_unfolding_all rfl
  exact ⟨h, segment_ids_lockstep helloDoc 0 helloSeg h⟩

/-- C10: a timing line containing the separator but no whitespace-delimited
token after it fails inside the handler (the modelled IndexError) and is
skipped, scanning continuing with the remaining lines; a later well-formed
cue is still extracted, and no exception escapes. -/
theorem dangling_arrow_skipped :
    (∀ (line : PyStr) (ls : List PyStr), containsArrow (pyStrip line) = true →
       pySplitWs (pyStrip (((pySplitOn arrow (pyStrip line)).tail).headD [])) = [] →
       parseTimingLine (pyStrip line) = none ∧
       extractLines .scanning (line :: ls) = extractLines .scanning ls) ∧
    parse_vtt_captions danglingDoc
      = [⟨"seg_0".toList, "still here".toList, 3, 9, "still here".toList, 0⟩] := by
  constructor
  · intro line ls harrow hempty
    have hnone : parseTimingLine (pyStrip line) = none := by
      cases hsplit : pySplitOn arrow (pyStrip line) with
      | nil => simp [parseTimingLine, hsplit]
      | cons p0 t =>
        cases t with
        | nil =>
          exfalso
          simp [containsArrow, hsplit] at harrow
        | cons p1 t2 =>
          rw [hsplit] at hempty
          simp only [List.tail_cons, List.headD_cons] at hempty
          cases hts : parse_vtt_timestamp (pyStrip p0) <;>
            simp [parseTimingLine, hsplit, hempty, hts]
    exact ⟨hnone, extractLines_skip_line line ls hnone⟩
  · with_unfolding_all rfl

/-- Witness for the C10 theorem at a concrete dangling timing line. -/
theorem dangling_arrow_skipped_witness :
    containsArrow (pyStrip danglingLine) = true ∧
    pySplitWs (pyStrip (((pySplitOn arrow (pyStrip danglingLine)).tail).headD [])) = [] ∧
    parseTimingLine (pyStrip danglingLine) = none := by
  have h1 : containsArrow (pyStrip danglingLine) = true := by with_unfolding_all rfl
  have h2 : pySplitWs (pyStrip (((pySplitOn arrow (pyStrip danglingLine)).tail).headD []))
      = [] := by with_unfolding_all rfl
  exact ⟨h1, h2, (dangling_arrow_skipped.1 danglingLine [] h1 h2).1⟩
